import Mathlib

/-!  Shallow embedding of `opty/direct_collocation.py`: the direct-collocation
constraint/Jacobian formulation engine.

Python integers and indices become `Nat`, numeric array entries become `ℚ`,
numpy arrays become (nested) lists, and fallible code returns
`Except String`.  SymPy symbols are modelled by an arbitrary type with
decidable equality; an instance constraint is abstracted by the list of
resolved free-variable indices of the state functions it references. -/

namespace Opty

/-- The two stencil names accepted by the `integration_method` setter. -/
inductive IntegrationMethod
  | backwardEuler
  | midpoint
deriving DecidableEq

/-- Collocator state relevant to stencil selection: the stored
`_integration_method` string together with a marker recording which stencil
the discrete equations of motion were last (re)generated for (the setter
re-runs `_discrete_symbols` and `_discretize_eom`). -/
structure StencilState where
  integrationMethod : String
  discreteEomMethod : String
deriving DecidableEq

/-- Embedding of the `integration_method` property setter
(`direct_collocation.py:425-433`): an invalid name raises `ValueError`;
otherwise the method is stored and the discrete symbols and discrete
equations of motion are regenerated for it. -/
def setIntegrationMethod (_c : StencilState) (method : String) :
    Except String StencilState :=
  if method = "backward euler" ∨ method = "midpoint" then
    Except.ok { integrationMethod := method, discreteEomMethod := method }
  else
    Except.error (method ++ " is not a valid integration method.")

/-- The Python loop `for s in known_syms: if s not in all_syms:
known_syms.remove(s)` of `_parse_inputs` (`direct_collocation.py:462-465`).
CPython's list iterator keeps a position that advances after every iteration
even when the current element was removed; removing shifts the remaining
elements left, so the element following a removed one is skipped.  The loop
runs at most `known.length` iterations (the position grows by one each
iteration while the length never grows), so structural fuel equal to the
initial length reproduces it exactly. -/
def removeLoopFuel [DecidableEq α] (allSyms : List α) :
    Nat → List α → Nat → List α
  | 0, l, _ => l
  | fuel + 1, l, i =>
    if h : i < l.length then
      if l.get ⟨i, h⟩ ∈ allSyms then
        removeLoopFuel allSyms fuel l (i + 1)
      else
        removeLoopFuel allSyms fuel (l.erase (l.get ⟨i, h⟩)) (i + 1)
    else l

/-- The known-symbol part of `_parse_inputs`
(`direct_collocation.py:459-492`): run the extraneous-key removal loop, then
return the `known` tuple (empty when there are no symbols at all, or when no
known symbols survive). -/
def parseInputsKnown [DecidableEq α] (allSyms knownSyms : List α) : List α :=
  if allSyms = [] then []
  else
    let ks := removeLoopFuel allSyms knownSyms.length knownSyms 0
    if ks = [] then [] else ks

/-- Number of equations-of-motion constraints `n * (N - 1)`
(`direct_collocation.py:397`). -/
def numConstraints (n N : Nat) : Nat := n * (N - 1)

/-- Embedding of `_instance_constraints_jacobian_indices`
(`direct_collocation.py:704-722`).  Each constraint is given by the resolved
free-variable indices of the functions it references; for the `i`-th
constraint the row `num_eom_constraints + i` is repeated once per referenced
function, where the source hard-codes `num_eom_constraints = 2 * (N - 1)`
(line 709), and the columns are the resolved indices themselves. -/
def instanceConstraintsJacobianIndices (N : Nat) (cons : List (List Nat)) :
    List Nat × List Nat :=
  ((cons.enum).flatMap fun p => List.replicate p.2.length (2 * (N - 1) + p.1),
   cons.flatten)

/-- C1: the claim states that the Jacobian entries of the `i`-th instance
constraint all carry row index `n·(N−1) + i`.  The code instead offsets the
rows by the hard-coded `2 * (N - 1)` (for "two states"), contradicting the
collocator's own `num_constraints = num_states * (N - 1)` bookkeeping: in a
one-state problem with `N = 3` and a single instance constraint referencing
one state instance (resolved free index 0), the produced row index is `4`,
while the dynamics rows occupy `0..1` and the full constraint vector has only
`numConstraints 1 3 + 1 = 3` rows, so row `4` is out of range and differs
from the claimed `1*(3−1)+0 = 2`.  The columns are the resolved indices, as
claimed. -/
theorem c1_instance_rows_hardcode_two_states :
    (instanceConstraintsJacobianIndices 3 [[0]]).1 = [4] ∧
    (instanceConstraintsJacobianIndices 3 [[0]]).2 = [0] ∧
    numConstraints 1 3 + 1 = 3 ∧
    numConstraints 1 3 + 0 = 2 ∧
    ¬ (4 : Nat) < 3 ∧ (4 : Nat) ≠ 2 := by
  refine ⟨rfl, rfl, rfl, rfl, by decide, by decide⟩

/-- C2: the claim states that every caller-supplied known key that does not
appear among the equations' symbols is dropped, with no extraneous key
surviving into the known tuple.  Because the source mutates `known_syms`
while iterating over it, removing one extraneous key skips the next entry:
with symbols `{0}` and known keys `[1, 2]` (both extraneous), key `1` is
removed but key `2` survives into the known tuple. -/
theorem c2_extraneous_key_survives :
    parseInputsKnown [0] [1, 2] = [2] ∧ (2 : Nat) ∉ [0] := by
  exact ⟨rfl, by decide⟩

/-- C7 counterexample: the claim states that any attempt to select a
different stencil on an existing instance is rejected.  The
`integration_method` setter accepts either valid stencil name at any time:
switching a backward-Euler collocator to midpoint succeeds (and regenerates
the discrete equations of motion), it is not rejected. -/
theorem c7_switching_stencil_is_accepted :
    setIntegrationMethod
      { integrationMethod := "backward euler",
        discreteEomMethod := "backward euler" } "midpoint" =
    Except.ok
      { integrationMethod := "midpoint", discreteEomMethod := "midpoint" } := by
  rfl

/-- C7 amended: the setter rejects exactly the invalid stencil names.  Any
state may be re-assigned either of the two valid names (the discrete
equations of motion are regenerated for the newly selected stencil), and
every other name raises `ValueError`. -/
theorem c7_amended_setter_validates_name (c : StencilState) (m : String) :
    (m = "backward euler" ∨ m = "midpoint" →
      setIntegrationMethod c m =
        Except.ok { integrationMethod := m, discreteEomMethod := m }) ∧
    (m ≠ "backward euler" ∧ m ≠ "midpoint" →
      setIntegrationMethod c m =
        Except.error (m ++ " is not a valid integration method.")) := by
  constructor
  · intro hm
    simp [setIntegrationMethod, hm]
  · intro hm
    simp [setIntegrationMethod, hm.1, hm.2]

/-- C7 amended, witness: a freshly constructed backward-Euler state can be
switched to midpoint, and a bogus name is rejected. -/
theorem c7_amended_witness :
    (setIntegrationMethod
      { integrationMethod := "backward euler",
        discreteEomMethod := "backward euler" } "midpoint" =
      Except.ok
        { integrationMethod := "midpoint", discreteEomMethod := "midpoint" }) ∧
    (setIntegrationMethod
      { integrationMethod := "midpoint",
        discreteEomMethod := "midpoint" } "rk4" =
      Except.error ("rk4" ++ " is not a valid integration method.")) := by
  constructor
  · exact (c7_amended_setter_validates_name
      { integrationMethod := "backward euler",
        discreteEomMethod := "backward euler" } "midpoint").1 (Or.inr rfl)
  · exact (c7_amended_setter_validates_name
      { integrationMethod := "midpoint",
        discreteEomMethod := "midpoint" } "rk4").2 ⟨by decide, by decide⟩

/-- The solver-infinity sentinel `INF = 10e19` of `_generate_bound_arrays`
(`direct_collocation.py:69`), i.e. the finite float `1e20`. -/
def INF : ℚ := 10 ^ 20

/-- numpy slice assignment `arr[start:stop] = v * ones(stop - start)`,
modelled positionally: the entry at absolute position `p` (the recursion
carries the position `i` of the list head) is overwritten by `v` exactly when
`start ≤ p < stop`. -/
def setSlice (start stop : Nat) (v : ℚ) : List ℚ → Nat → List ℚ
  | [], _ => []
  | x :: xs, i =>
    (if start ≤ i ∧ i < stop then v else x) :: setSlice start stop v xs (i + 1)

/-- Free-variable vector length
`(n + q) * N + r` (`direct_collocation.py:404-407`). -/
def numFree (n q r N : Nat) : Nat := (n + q) * N + r

/-- One iteration of the bounds loop of `_generate_bound_arrays`
(`direct_collocation.py:82-99`): a key found among the state symbols
overwrites that state's `N`-slot block in both arrays, an unknown input
trajectory key overwrites its block after all state blocks, an unknown
parameter key overwrites its single slot after all trajectory blocks, and
any other key falls through the `if`/`elif` chain leaving both arrays
unchanged. -/
def applyBound [DecidableEq α] (stateSyms unkTraj unkPar : List α) (N : Nat)
    (acc : List ℚ × List ℚ) (entry : α × ℚ × ℚ) : List ℚ × List ℚ :=
  let n := stateSyms.length
  let numStateNodes := N * n
  let numNonParNodes := N * (n + unkTraj.length)
  if entry.1 ∈ stateSyms then
    let i := stateSyms.indexOf entry.1
    (setSlice (i * N) (i * N + N) entry.2.1 acc.1 0,
     setSlice (i * N) (i * N + N) entry.2.2 acc.2 0)
  else if entry.1 ∈ unkTraj then
    let i := unkTraj.indexOf entry.1
    (setSlice (numStateNodes + i * N) (numStateNodes + i * N + N) entry.2.1 acc.1 0,
     setSlice (numStateNodes + i * N) (numStateNodes + i * N + N) entry.2.2 acc.2 0)
  else if entry.1 ∈ unkPar then
    let i := unkPar.indexOf entry.1
    (setSlice (numNonParNodes + i) (numNonParNodes + i + 1) entry.2.1 acc.1 0,
     setSlice (numNonParNodes + i) (numNonParNodes + i + 1) entry.2.2 acc.2 0)
  else acc

/-- Embedding of `_generate_bound_arrays` (`direct_collocation.py:68-102`):
both arrays start filled with `-INF` / `INF` over the free-vector length, and
when a bounds dictionary was supplied its entries are folded through
`applyBound` in insertion order. -/
def generateBoundArrays [DecidableEq α] (stateSyms unkTraj unkPar : List α)
    (N : Nat) (bounds : Option (List (α × ℚ × ℚ))) : List ℚ × List ℚ :=
  let nf := numFree stateSyms.length unkTraj.length unkPar.length N
  let init : List ℚ × List ℚ :=
    (List.replicate nf (-INF), List.replicate nf INF)
  match bounds with
  | none => init
  | some bs => bs.foldl (applyBound stateSyms unkTraj unkPar N) init

lemma setSlice_length (start stop : Nat) (v : ℚ) :
    ∀ (l : List ℚ) (i : Nat), (setSlice start stop v l i).length = l.length := by
  intro l
  induction l with
  | nil => intro i; simp [setSlice]
  | cons x xs ih => intro i; simp [setSlice, ih]

lemma setSlice_getD (start stop : Nat) (v : ℚ) :
    ∀ (l : List ℚ) (i k : Nat) (d : ℚ),
      (setSlice start stop v l i).getD k d =
        if start ≤ i + k ∧ i + k < stop ∧ k < l.length then v
        else l.getD k d := by
  intro l
  induction l with
  | nil => intro i k d; simp [setSlice]
  | cons x xs ih =>
    intro i k d
    cases k with
    | zero =>
      have hc : (start ≤ i + 0 ∧ i + 0 < stop ∧ 0 < (x :: xs).length) ↔
          (start ≤ i ∧ i < stop) := by
        simp only [List.length_cons]; omega
      simp only [setSlice, List.getD_cons_zero, hc]
    | succ k =>
      have hc : (start ≤ (i + 1) + k ∧ (i + 1) + k < stop ∧ k < xs.length) ↔
          (start ≤ i + (k + 1) ∧ i + (k + 1) < stop ∧
            k + 1 < (x :: xs).length) := by
        simp only [List.length_cons]; omega
      simp only [setSlice, List.getD_cons_succ, ih (i + 1) k d, hc]

lemma replicate_getD (c d : ℚ) :
    ∀ (m k : Nat), (List.replicate m c).getD k d = if k < m then c else d := by
  intro m
  induction m with
  | zero => intro k; simp [List.replicate]
  | succ m ih =>
    intro k
    cases k with
    | zero => simp [List.replicate]
    | succ k => simpa [List.replicate] using ih k

lemma applyBound_length [DecidableEq α] (stateSyms unkTraj unkPar : List α)
    (N : Nat) (acc : List ℚ × List ℚ) (entry : α × ℚ × ℚ) :
    (applyBound stateSyms unkTraj unkPar N acc entry).1.length = acc.1.length ∧
    (applyBound stateSyms unkTraj unkPar N acc entry).2.length = acc.2.length := by
  unfold applyBound
  split_ifs <;> simp [setSlice_length]

lemma generateBoundArrays_foldl_length [DecidableEq α]
    (stateSyms unkTraj unkPar : List α) (N : Nat) :
    ∀ (bs : List (α × ℚ × ℚ)) (acc : List ℚ × List ℚ),
      (bs.foldl (applyBound stateSyms unkTraj unkPar N) acc).1.length =
        acc.1.length ∧
      (bs.foldl (applyBound stateSyms unkTraj unkPar N) acc).2.length =
        acc.2.length := by
  intro bs
  induction bs with
  | nil => intro acc; simp
  | cons e bs ih =>
    intro acc
    have h := applyBound_length stateSyms unkTraj unkPar N acc e
    simpa [List.foldl_cons, h.1, h.2] using
      ih (applyBound stateSyms unkTraj unkPar N acc e)

/-- C10: bound-array generation silently skips every bounds-dictionary entry
whose key is none of the problem's state symbols, unknown input trajectories
or unknown parameters: such an entry leaves the accumulated arrays untouched,
so generating with the entry present anywhere in the dictionary gives exactly
the arrays generated without it, and no error is raised. -/
theorem c10_alien_bound_keys_skipped [DecidableEq α]
    (stateSyms unkTraj unkPar : List α) (N : Nat) (entry : α × ℚ × ℚ)
    (h1 : entry.1 ∉ stateSyms) (h2 : entry.1 ∉ unkTraj)
    (h3 : entry.1 ∉ unkPar) :
    (∀ acc, applyBound stateSyms unkTraj unkPar N acc entry = acc) ∧
    (∀ bs1 bs2 : List (α × ℚ × ℚ),
      generateBoundArrays stateSyms unkTraj unkPar N
          (some (bs1 ++ entry :: bs2)) =
        generateBoundArrays stateSyms unkTraj unkPar N (some (bs1 ++ bs2))) := by
  have hskip : ∀ acc, applyBound stateSyms unkTraj unkPar N acc entry = acc := by
    intro acc
    simp [applyBound, h1, h2, h3]
  refine ⟨hskip, ?_⟩
  intro bs1 bs2
  simp [generateBoundArrays, List.foldl_append, List.foldl_cons, hskip]

/-- C10 witness: in a two-state, `N = 4` problem, a bounds entry on the
alien key `99` changes nothing. -/
theorem c10_witness :
    ((99 : Nat) ∉ [10, 11] ∧ (99 : Nat) ∉ ([] : List Nat) ∧
      (99 : Nat) ∉ ([] : List Nat)) ∧
    generateBoundArrays [10, 11] ([] : List Nat) [] 4
        (some ([] ++ (99, (-1 : ℚ), (1 : ℚ)) :: [])) =
      generateBoundArrays [10, 11] ([] : List Nat) [] 4 (some ([] ++ [])) := by
  refine ⟨⟨by decide, by decide, by decide⟩, ?_⟩
  exact (c10_alien_bound_keys_skipped [10, 11] [] [] 4 (99, -1, 1)
    (by decide) (by decide) (by decide)).2 [] []

lemma setSlice_replicate_getD (start stop nf k : Nat) (v c : ℚ)
    (hk : k < nf) :
    (setSlice start stop v (List.replicate nf c) 0).getD k 0 =
      if start ≤ k ∧ k < stop then v else c := by
  rw [setSlice_getD, replicate_getD]
  simp only [List.length_replicate]
  split_ifs <;> first | rfl | omega

/-- C8 counterexample: the claim states that every slot of the two bound
vectors defaults to `±∞`.  The code fills them with the finite sentinel
`±10e19 = ±10^20` instead: in a two-state, `N = 4` problem with no declared
bounds, slot 0 of the upper-bound vector equals `10^20`, a value that
excludes e.g. `10^20 + 1`, so the default slot is a finite sentinel and not
an unrestricted `+∞` (symmetrically for the lower bound). -/
theorem c8_default_is_finite_sentinel :
    (generateBoundArrays [10, 11] ([] : List Nat) [] 4 none).2.getD 0 0 =
      10 ^ 20 ∧
    (generateBoundArrays [10, 11] ([] : List Nat) [] 4 none).1.getD 0 0 =
      -(10 ^ 20) ∧
    ¬ ((10 ^ 20 + 1 : ℚ) ≤
        (generateBoundArrays [10, 11] ([] : List Nat) [] 4 none).2.getD 0 0) ∧
    ¬ ((generateBoundArrays [10, 11] ([] : List Nat) [] 4 none).1.getD 0 0 ≤
        -(10 ^ 20) - 1) := by
  have hub : (generateBoundArrays [10, 11] ([] : List Nat) [] 4 none).2.getD 0 0 =
      (10 ^ 20 : ℚ) := by
    simp [generateBoundArrays, numFree, INF, replicate_getD]
  have hlb : (generateBoundArrays [10, 11] ([] : List Nat) [] 4 none).1.getD 0 0 =
      -(10 ^ 20 : ℚ) := by
    simp [generateBoundArrays, numFree, INF, replicate_getD]
  refine ⟨hub, hlb, ?_, ?_⟩
  · rw [hub]; norm_num
  · rw [hlb]; norm_num

/-- C8 amended: both bound vectors have length equal to the free-vector
length and every slot defaults to the finite solver-infinity sentinel
`±10e19` (which the external solver treats as unbounded); declaring
per-symbol bounds `(a, b)` on a state or unknown trajectory overrides
exactly that symbol's contiguous block of `N` slots (one slot for an
unknown parameter) and leaves every other slot at the sentinel default. -/
theorem c8_amended_bound_arrays [DecidableEq α]
    (stateSyms unkTraj unkPar : List α) (N : Nat)
    (bs : List (α × ℚ × ℚ)) (s : α) (a b : ℚ) (k : Nat) :
    ((generateBoundArrays stateSyms unkTraj unkPar N (some bs)).1.length =
        numFree stateSyms.length unkTraj.length unkPar.length N ∧
      (generateBoundArrays stateSyms unkTraj unkPar N (some bs)).2.length =
        numFree stateSyms.length unkTraj.length unkPar.length N) ∧
    (generateBoundArrays stateSyms unkTraj unkPar N none =
      (List.replicate
          (numFree stateSyms.length unkTraj.length unkPar.length N) (-INF),
        List.replicate
          (numFree stateSyms.length unkTraj.length unkPar.length N) INF)) ∧
    (s ∈ stateSyms →
      k < numFree stateSyms.length unkTraj.length unkPar.length N →
      ((generateBoundArrays stateSyms unkTraj unkPar N
            (some [(s, a, b)])).1.getD k 0 =
        if stateSyms.indexOf s * N ≤ k ∧ k < stateSyms.indexOf s * N + N
        then a else -INF) ∧
      ((generateBoundArrays stateSyms unkTraj unkPar N
            (some [(s, a, b)])).2.getD k 0 =
        if stateSyms.indexOf s * N ≤ k ∧ k < stateSyms.indexOf s * N + N
        then b else INF)) ∧
    (s ∉ stateSyms → s ∈ unkTraj →
      k < numFree stateSyms.length unkTraj.length unkPar.length N →
      ((generateBoundArrays stateSyms unkTraj unkPar N
            (some [(s, a, b)])).1.getD k 0 =
        if N * stateSyms.length + unkTraj.indexOf s * N ≤ k ∧
            k < N * stateSyms.length + unkTraj.indexOf s * N + N
        then a else -INF) ∧
      ((generateBoundArrays stateSyms unkTraj unkPar N
            (some [(s, a, b)])).2.getD k 0 =
        if N * stateSyms.length + unkTraj.indexOf s * N ≤ k ∧
            k < N * stateSyms.length + unkTraj.indexOf s * N + N
        then b else INF)) ∧
    (s ∉ stateSyms → s ∉ unkTraj → s ∈ unkPar →
      k < numFree stateSyms.length unkTraj.length unkPar.length N →
      ((generateBoundArrays stateSyms unkTraj unkPar N
            (some [(s, a, b)])).1.getD k 0 =
        if k = N * (stateSyms.length + unkTraj.length) + unkPar.indexOf s
        then a else -INF) ∧
      ((generateBoundArrays stateSyms unkTraj unkPar N
            (some [(s, a, b)])).2.getD k 0 =
        if k = N * (stateSyms.length + unkTraj.length) + unkPar.indexOf s
        then b else INF)) := by
  refine ⟨⟨?_, ?_⟩, rfl, ?_, ?_, ?_⟩
  · simp only [generateBoundArrays]
    rw [(generateBoundArrays_foldl_length stateSyms unkTraj unkPar N bs _).1]
    simp
  · simp only [generateBoundArrays]
    rw [(generateBoundArrays_foldl_length stateSyms unkTraj unkPar N bs _).2]
    simp
  · intro hs hk
    constructor
    · simp only [generateBoundArrays, List.foldl_cons, List.foldl_nil,
        applyBound, hs, if_true, if_false, eq_self_iff_true]
      rw [setSlice_replicate_getD _ _ _ _ _ _ hk]
    · simp only [generateBoundArrays, List.foldl_cons, List.foldl_nil,
        applyBound, hs, if_true, if_false, eq_self_iff_true]
      rw [setSlice_replicate_getD _ _ _ _ _ _ hk]
  · intro hs ht hk
    constructor
    · simp only [generateBoundArrays, List.foldl_cons, List.foldl_nil,
        applyBound, hs, ht, if_true, if_false, eq_self_iff_true]
      rw [setSlice_replicate_getD _ _ _ _ _ _ hk]
    · simp only [generateBoundArrays, List.foldl_cons, List.foldl_nil,
        applyBound, hs, ht, if_true, if_false, eq_self_iff_true]
      rw [setSlice_replicate_getD _ _ _ _ _ _ hk]
  · intro hs ht hp hk
    constructor
    · simp only [generateBoundArrays, List.foldl_cons, List.foldl_nil,
        applyBound, hs, ht, hp, if_true, if_false, eq_self_iff_true]
      rw [setSlice_replicate_getD _ _ _ _ _ _ hk]
      split_ifs <;> first | rfl | omega
    · simp only [generateBoundArrays, List.foldl_cons, List.foldl_nil,
        applyBound, hs, ht, hp, if_true, if_false, eq_self_iff_true]
      rw [setSlice_replicate_getD _ _ _ _ _ _ hk]
      split_ifs <;> first | rfl | omega

/-- C8 amended, witness: declaring bounds `(-1, 1)` on the first state of a
two-state, `N = 4` problem, slot 0 (inside that state's block) takes the
declared lower bound. -/
theorem c8_amended_witness :
    (10 : Nat) ∈ [10, 11] ∧ (0 : Nat) < numFree 2 0 0 4 ∧
    ((generateBoundArrays [10, 11] ([] : List Nat) []
        4 (some [(10, (-1 : ℚ), 1)])).1.getD 0 0 =
      if List.indexOf 10 [10, 11] * 4 ≤ 0 ∧
          0 < List.indexOf 10 [10, 11] * 4 + 4
      then (-1 : ℚ) else -INF) := by
  refine ⟨by decide, by decide, ?_⟩
  exact ((c8_amended_bound_arrays [10, 11] ([] : List Nat) [] 4 []
    10 (-1) 1 0).2.2.1 (by decide) (by decide)).1

/-- Column of arguments fed to the compiled discrete-residual evaluator at
constraint node `k` under backward Euler (`_gen_multi_arg_con_func`,
`direct_collocation.py:797-805` and `854-880`): the current-node slice
`state_values[:, 1:]` contributes `x[j][k+1]`, the adjacent slice
`state_values[:, :-1]` contributes `x[j][k]`, the specified slice
`specified_values[:, 1:]` contributes `s[j][k+1]`, followed by the constant
values and the interval `h`. -/
def argColumnBE (x s : List (List ℚ)) (c : List ℚ) (h : ℚ) (k : Nat) :
    List ℚ :=
  x.map (fun row => row.getD (k + 1) 0) ++ x.map (fun row => row.getD k 0) ++
    s.map (fun row => row.getD (k + 1) 0) ++ c ++ [h]

/-- The unguarded body of the backward-Euler constraint evaluator
(`direct_collocation.py:854-889`): evaluate each state's discrete residual
`f j` over the `N - 1` constraint nodes and flatten the transposed result in
state-major order (`.T.flatten()`). -/
def conCoreBE (n N : Nat) (f : Nat → List ℚ → ℚ) (x s : List (List ℚ))
    (c : List ℚ) (h : ℚ) : List ℚ :=
  (List.range n).flatMap fun j =>
    (List.range (N - 1)).map fun k => f j (argColumnBE x s c h k)

/-- Embedding of the `constraints` closure produced by
`_gen_multi_arg_con_func` (`direct_collocation.py:822-891`) for backward
Euler: first the guard `if state_values.shape[0] < 2: raise ValueError(...)`
(line 848, testing the number of state *rows*), then the shape assertions
(`state_values.shape == (n, N)`, and the specified array empty or of shape
`(m, N)`), then the residual evaluation. -/
def conFuncBE (n m N : Nat) (f : Nat → List ℚ → ℚ) (x s : List (List ℚ))
    (c : List ℚ) (h : ℚ) : Except String (List ℚ) :=
  if x.length < 2 then
    Except.error "There should always be at least two states."
  else if ¬ (x.length = n ∧ ∀ row ∈ x, row.length = N) then
    Except.error "AssertionError: state shape"
  else if ¬ (s = [] ∨ (s.length = m ∧ ∀ row ∈ s, row.length = N)) then
    Except.error "AssertionError: specified shape"
  else
    Except.ok (conCoreBE n N f x s c h)

/-- Modelled from the spec: `opty.utils.parse_free` is imported at
`direct_collocation.py:10` but `utils.py` is not part of the source tree.
Spec §4.3 defines `parse(flat, n, q, N)` as contiguous-block slicing of the
flat vector into an `n × N` state array, a `q × N` unknown-trajectory array
and the trailing unknown parameters. -/
def parseFree (free : List ℚ) (n q N : Nat) :
    List (List ℚ) × List (List ℚ) × List ℚ :=
  ((List.range n).map (fun j => ((free.drop (j * N)).take N)),
   (List.range q).map (fun j => ((free.drop (n * N + j * N)).take N)),
   free.drop ((n + q) * N))

/-- Trajectory branch of `_merge_fixed_free`
(`direct_collocation.py:1246-1279`): walk the declared symbol order, taking
a known symbol's array from the fixed map and otherwise consuming the next
row of the free array (the counter `n` in the source; consuming from the
front is the same bookkeeping).  The 1-D broadcast special case does not
arise here since the free trajectories are kept as a `q × N` array. -/
def mergeFixedFreeTraj [DecidableEq α] :
    List α → (α → Option (List ℚ)) → List (List ℚ) → List (List ℚ)
  | [], _, _ => []
  | sy :: rest, fixed, free =>
    match fixed sy with
    | some arr => arr :: mergeFixedFreeTraj rest fixed free
    | none => free.headD [] :: mergeFixedFreeTraj rest fixed free.tail

/-- Parameter branch of `_merge_fixed_free`
(`direct_collocation.py:1246-1279`). -/
def mergeFixedFreePar [DecidableEq α] :
    List α → (α → Option ℚ) → List ℚ → List ℚ
  | [], _, _ => []
  | sy :: rest, fixed, free =>
    match fixed sy with
    | some v => v :: mergeFixedFreePar rest fixed free
    | none => free.headD 0 :: mergeFixedFreePar rest fixed free.tail

/-- Discrete residual of the one-state system `ẋ = u` under backward Euler
(`_discretize_eom`, `direct_collocation.py:638-644`): the equation of motion
`x'(t) - u(t)` becomes `(xi - xp)/h - ui`, read off an argument column
ordered `(xi, xp, ui, h)`. -/
def residC4 : Nat → List ℚ → ℚ :=
  fun _ a => (a.getD 0 0 - a.getD 1 0) / a.getD 3 0 - a.getD 2 0

/-- The full constraints callback (`_wrap_constraint_funcs`,
`direct_collocation.py:1301-1326`) for the C4 scenario: one state `x`
(symbol id 1), one known input trajectory `u` (symbol id 0) with data
`[0, 0, 0]`, no unknown trajectories or parameters, `N = 3`, `h = 1`, no
instance constraints.  The free vector is parsed, the known trajectory and
(no) parameters merged in, and the multi-argument constraint function
applied. -/
def constraintsCallbackC4 (free : List ℚ) : Except String (List ℚ) :=
  let parsed := parseFree free 1 0 3
  let allSpecified :=
    mergeFixedFreeTraj [(0 : Nat)]
      (fun u => if u = 0 then some [0, 0, 0] else none) parsed.2.1
  let allConstants := mergeFixedFreePar ([] : List Nat) (fun _ => none) parsed.2.2
  conFuncBE 1 1 3 residC4 parsed.1 allSpecified allConstants 1

/-- C3: the claim states the evaluator raises exactly when the state array
has fewer than 2 node columns, and never raises when it has at least 2 node
columns and matching shapes.  The guard actually tests `shape[0]`, the
number of state rows: a `(1, 3)` state array (3 ≥ 2 node columns, shapes
matching a one-state, `N = 3` problem) raises the `ValueError`, while a
`(2, 1)` array (only 1 node column, matching a two-state `N = 1` problem)
evaluates without raising.  Both directions of the claim fail; the class's
own `N - 1` constraint bookkeeping shows the ≥ 2 requirement belongs to the
node axis. -/
theorem c3_dimension_guard_tests_wrong_axis :
    (conFuncBE 1 1 3 (fun _ _ => 0) [[0, 0, 0]] [[0, 0, 0]] [] 1 =
      Except.error "There should always be at least two states.") ∧
    ([[(0 : ℚ), 0, 0]].length = 1 ∧
      ∀ row ∈ [[(0 : ℚ), 0, 0]], row.length = 3) ∧
    (2 ≤ 3) ∧
    (conFuncBE 2 0 1 (fun _ _ => 0) [[0], [0]] [] [] 1 = Except.ok []) := by
  refine ⟨rfl, ⟨rfl, by decide⟩, by decide, rfl⟩

/-- C4: the claim states the constraints callback at the free vector
`[0, 1, 1]` returns `[1, 0]` for the backward-Euler one-state system
`ẋ = u`, `N = 3`, `h = 1`, `u = [0, 0, 0]`.  The formulation itself does
produce `[1, 0]` — the unguarded evaluator body applied to the parsed state
array yields exactly the residuals `[x1 − x0, x2 − x1] = [1, 0]` — but the
callback raises the (wrong-axis) `ValueError` of
`direct_collocation.py:848-849` first, because the problem has a single
state row. -/
theorem c4_one_state_scenario_raises_despite_correct_residuals :
    (constraintsCallbackC4 [0, 1, 1] =
      Except.error "There should always be at least two states.") ∧
    (conCoreBE 1 3 residC4 [[0, 1, 1]] [[0, 0, 0]] [] 1 = [1, 0]) := by
  refine ⟨rfl, ?_⟩
  norm_num [conCoreBE, argColumnBE, residC4, List.range_succ]

/-- Row indices of one constraint node `i`: `j * (N - 1) + i` for each state
`j` (`direct_collocation.py:1057`). -/
def rowIdxs (n numConstraintNodes i : Nat) : List Nat :=
  (List.range n).map fun j => j * numConstraintNodes + i

/-- Column indices of one constraint node
(`direct_collocation.py:1068-1086`): backward Euler lists the current states
at node `i + 1`, the adjacent (previous) states at node `i`, the unknown
input trajectories at node `i + 1` and the unknown parameters after all
`(n + q)` node blocks; midpoint lists current states at `i`, next states at
`i + 1`, unknown trajectories at `i` then at `i + 1`, then the unknown
parameters. -/
def colIdxs (m : IntegrationMethod) (n q r N i : Nat) : List Nat :=
  match m with
  | .backwardEuler =>
      ((List.range n).map fun j => j * N + i + 1) ++
      ((List.range n).map fun j => j * N + i) ++
      ((List.range q).map fun j => n * N + j * N + i + 1) ++
      ((List.range r).map fun j => (n + q) * N + j)
  | .midpoint =>
      ((List.range n).map fun j => j * N + i) ++
      ((List.range n).map fun j => j * N + i + 1) ++
      ((List.range q).map fun j => n * N + j * N + i) ++
      ((List.range q).map fun j => n * N + j * N + i + 1) ++
      ((List.range r).map fun j => (n + q) * N + j)

/-- `np.repeat(row_idxs, len(col_idxs))` (`direct_collocation.py:1088`). -/
def nodeRowEntries (m : IntegrationMethod) (n q r N i : Nat) : List Nat :=
  (rowIdxs n (N - 1) i).flatMap fun v =>
    List.replicate (colIdxs m n q r N i).length v

/-- `np.array(list(col_idxs) * len(row_idxs))`
(`direct_collocation.py:1089-1090`). -/
def nodeColEntries (m : IntegrationMethod) (n q r N i : Nat) : List Nat :=
  (List.replicate (rowIdxs n (N - 1) i).length (colIdxs m n q r N i)).flatten

/-- The dynamics part of `jacobian_indices`'s row array: the per-node blocks
written one after another into the slices
`[i * num_partials, (i+1) * num_partials)` (`direct_collocation.py:1043-1095`). -/
def dynJacRowIdxs (m : IntegrationMethod) (n q r N : Nat) : List Nat :=
  (List.range (N - 1)).flatMap (nodeRowEntries m n q r N)

/-- The dynamics part of `jacobian_indices`'s column array. -/
def dynJacColIdxs (m : IntegrationMethod) (n q r N : Nat) : List Nat :=
  (List.range (N - 1)).flatMap (nodeColEntries m n q r N)

/-- `num_partials` (`direct_collocation.py:911-920`):
`n * (2n + q + r)` for backward Euler, `n * (2n + 2q + r)` for midpoint. -/
def numNonzeroPerNode (m : IntegrationMethod) (n q r : Nat) : Nat :=
  match m with
  | .backwardEuler => n * (2 * n + q + r)
  | .midpoint => n * (2 * n + 2 * q + r)

/-- Full `jacobian_indices` (`direct_collocation.py:893-1101`): the dynamics
pattern, with the instance-constraint indices written into the trailing
slots when instance constraints are present. -/
def jacobianIndices (m : IntegrationMethod) (n q r N : Nat)
    (inst : Option (List (List Nat))) : List Nat × List Nat :=
  match inst with
  | none => (dynJacRowIdxs m n q r N, dynJacColIdxs m n q r N)
  | some cons =>
      (dynJacRowIdxs m n q r N ++ (instanceConstraintsJacobianIndices N cons).1,
       dynJacColIdxs m n q r N ++ (instanceConstraintsJacobianIndices N cons).2)

/-- Length of the `wrt` list the symbolic partials are taken against
(`direct_collocation.py:1130` and `1143-1144`): `xi + xp + ui + params` for
backward Euler and `xi + xn + ui + un + params` for midpoint. -/
def wrtLen (m : IntegrationMethod) (n q r : Nat) : Nat :=
  match m with
  | .backwardEuler => 2 * n + q + r
  | .midpoint => 2 * n + 2 * q + r

/-- The dynamics part of the Jacobian value array
(`_gen_multi_arg_con_jac_func`, `direct_collocation.py:1163-1242`): the
compiled partials evaluator fills a result array of shape
`(N - 1, n * wrtLen)` which is then raveled; `vals k j` abstracts the
numeric partial value at constraint node `k`, flat in-node position `j`. -/
def dynJacValues (m : IntegrationMethod) (n q r N : Nat)
    (vals : Nat → Nat → ℚ) : List ℚ :=
  (List.range (N - 1)).flatMap fun k =>
    (List.range (n * wrtLen m n q r)).map fun j => vals k j

/-- The full Jacobian value array (`_wrap_constraint_funcs`,
`direct_collocation.py:1319-1324`): dynamics values with the
instance-constraint Jacobian values (one block per constraint, one value per
referenced function) stacked after them when instance constraints are
present. -/
def jacValues (m : IntegrationMethod) (n q r N : Nat) (vals : Nat → Nat → ℚ)
    (instVals : Option (List (List ℚ))) : List ℚ :=
  match instVals with
  | none => dynJacValues m n q r N vals
  | some vs => dynJacValues m n q r N vals ++ vs.flatten

/-- Modelled from the spec (for comparison with `colIdxs`): the claimed
column mapping of one constraint node, as a function of the in-node partial
position `k` running through current states, adjacent states, unknown
trajectories (current, and for midpoint also next) and unknown parameters,
with backward Euler placing current columns at node `i + 1` and adjacent at
`i`, midpoint placing current at `i` and adjacent/next at `i + 1`, and the
unknown parameters after all state and unknown-trajectory blocks. -/
def specColIndex (m : IntegrationMethod) (n q N i k : Nat) : Nat :=
  match m with
  | .backwardEuler =>
      if k < n then k * N + (i + 1)
      else if k < 2 * n then (k - n) * N + i
      else if k < 2 * n + q then n * N + (k - 2 * n) * N + (i + 1)
      else (n + q) * N + (k - (2 * n + q))
  | .midpoint =>
      if k < n then k * N + i
      else if k < 2 * n then (k - n) * N + (i + 1)
      else if k < 2 * n + q then n * N + (k - 2 * n) * N + i
      else if k < 2 * n + 2 * q then n * N + (k - (2 * n + q)) * N + (i + 1)
      else (n + q) * N + (k - (2 * n + 2 * q))

/-- Modelled from the spec: the claimed dynamics row layout — for node `i`
and state `j` the row `j * (N - 1) + i`, repeated once per in-node partial. -/
def specDynRowIdxs (m : IntegrationMethod) (n q r N : Nat) : List Nat :=
  (List.range (N - 1)).flatMap fun i =>
    (List.range n).flatMap fun j =>
      List.replicate (wrtLen m n q r) (j * (N - 1) + i)

/-- Modelled from the spec: the claimed dynamics column layout — for node
`i` and each state, the `specColIndex` columns in partial order. -/
def specDynColIdxs (m : IntegrationMethod) (n q r N : Nat) : List Nat :=
  (List.range (N - 1)).flatMap fun i =>
    (List.range n).flatMap fun _ =>
      (List.range (wrtLen m n q r)).map (specColIndex m n q N i)

lemma flatMapCongr {β γ : Type} {l : List β} {f g : β → List γ}
    (h : ∀ a ∈ l, f a = g a) : l.flatMap f = l.flatMap g := by
  induction l with
  | nil => rfl
  | cons x xs ih =>
    simp only [List.flatMap_cons]
    rw [h x (by simp), ih fun a ha => h a (by simp [ha])]

lemma flatMapLengthConst {β γ : Type} (l : List β) (f : β → List γ) (c : Nat)
    (h : ∀ a ∈ l, (f a).length = c) : (l.flatMap f).length = l.length * c := by
  induction l with
  | nil => simp
  | cons x xs ih =>
    simp only [List.flatMap_cons, List.length_append, List.length_cons]
    rw [h x (by simp), ih fun a ha => h a (by simp [ha])]
    ring

lemma flattenReplicate {γ : Type} (k : Nat) (X : List γ) :
    (List.replicate k X).flatten = (List.range k).flatMap fun _ => X := by
  induction k with
  | zero => rfl
  | succ k ih =>
    rw [List.replicate_succ, List.flatten_cons, ih, List.range_succ_eq_map,
      List.flatMap_cons, List.flatMap_map]

lemma rowIdxs_length (n c i : Nat) : (rowIdxs n c i).length = n := by
  simp [rowIdxs]

lemma colIdxs_length (m : IntegrationMethod) (n q r N i : Nat) :
    (colIdxs m n q r N i).length = wrtLen m n q r := by
  cases m <;> simp [colIdxs, wrtLen] <;> ring

lemma mapRangeAdd (a b : Nat) (f : Nat → Nat) :
    (List.range (a + b)).map f =
      (List.range a).map f ++ (List.range b).map fun k => f (a + k) := by
  rw [List.range_add, List.map_append, List.map_map]
  rfl

lemma colIdxs_eq_spec (m : IntegrationMethod) (n q r N i : Nat) :
    colIdxs m n q r N i =
      (List.range (wrtLen m n q r)).map (specColIndex m n q N i) := by
  cases m with
  | backwardEuler =>
    have h1 : (List.range n).map
          (specColIndex IntegrationMethod.backwardEuler n q N i) =
        (List.range n).map fun j => j * N + i + 1 := by
      apply List.map_congr_left
      intro k hk
      simp only [List.mem_range] at hk
      simp only [specColIndex]
      rw [if_pos hk]
      ring
    have h2 : ((List.range n).map fun k =>
          specColIndex IntegrationMethod.backwardEuler n q N i (n + k)) =
        (List.range n).map fun j => j * N + i := by
      apply List.map_congr_left
      intro k hk
      simp only [List.mem_range] at hk
      simp only [specColIndex]
      rw [if_neg (by omega), if_pos (by omega)]
      have hs : n + k - n = k := by omega
      rw [hs]
    have h3 : ((List.range q).map fun k =>
          specColIndex IntegrationMethod.backwardEuler n q N i (n + (n + k))) =
        (List.range q).map fun j => n * N + j * N + i + 1 := by
      apply List.map_congr_left
      intro k hk
      simp only [List.mem_range] at hk
      simp only [specColIndex]
      rw [if_neg (by omega), if_neg (by omega), if_pos (by omega)]
      have hs : n + (n + k) - 2 * n = k := by omega
      rw [hs]
      ring
    have h4 : ((List.range r).map fun k =>
          specColIndex IntegrationMethod.backwardEuler n q N i
            (n + (n + (q + k)))) =
        (List.range r).map fun j => (n + q) * N + j := by
      apply List.map_congr_left
      intro k hk
      simp only [List.mem_range] at hk
      simp only [specColIndex]
      rw [if_neg (by omega), if_neg (by omega), if_neg (by omega)]
      have hs : n + (n + (q + k)) - (2 * n + q) = k := by omega
      rw [hs]
    simp only [colIdxs, wrtLen]
    rw [show 2 * n + q + r = n + (n + (q + r)) from by ring, mapRangeAdd,
      mapRangeAdd, mapRangeAdd, h1, h2, h3, h4]
    simp [List.append_assoc]
  | midpoint =>
    have h1 : (List.range n).map
          (specColIndex IntegrationMethod.midpoint n q N i) =
        (List.range n).map fun j => j * N + i := by
      apply List.map_congr_left
      intro k hk
      simp only [List.mem_range] at hk
      simp only [specColIndex]
      rw [if_pos hk]
    have h2 : ((List.range n).map fun k =>
          specColIndex IntegrationMethod.midpoint n q N i (n + k)) =
        (List.range n).map fun j => j * N + i + 1 := by
      apply List.map_congr_left
      intro k hk
      simp only [List.mem_range] at hk
      simp only [specColIndex]
      rw [if_neg (by omega), if_pos (by omega)]
      have hs : n + k - n = k := by omega
      rw [hs]
      ring
    have h3 : ((List.range q).map fun k =>
          specColIndex IntegrationMethod.midpoint n q N i (n + (n + k))) =
        (List.range q).map fun j => n * N + j * N + i := by
      apply List.map_congr_left
      intro k hk
      simp only [List.mem_range] at hk
      simp only [specColIndex]
      rw [if_neg (by omega), if_neg (by omega), if_pos (by omega)]
      have hs : n + (n + k) - 2 * n = k := by omega
      rw [hs]
    have h4 : ((List.range q).map fun k =>
          specColIndex IntegrationMethod.midpoint n q N i
            (n + (n + (q + k)))) =
        (List.range q).map fun j => n * N + j * N + i + 1 := by
      apply List.map_congr_left
      intro k hk
      simp only [List.mem_range] at hk
      simp only [specColIndex]
      rw [if_neg (by omega), if_neg (by omega), if_neg (by omega),
        if_pos (by omega)]
      have hs : n + (n + (q + k)) - (2 * n + q) = k := by omega
      rw [hs]
      ring
    have h5 : ((List.range r).map fun k =>
          specColIndex IntegrationMethod.midpoint n q N i
            (n + (n + (q + (q + k))))) =
        (List.range r).map fun j => (n + q) * N + j := by
      apply List.map_congr_left
      intro k hk
      simp only [List.mem_range] at hk
      simp only [specColIndex]
      rw [if_neg (by omega), if_neg (by omega), if_neg (by omega),
        if_neg (by omega)]
      have hs : n + (n + (q + (q + k))) - (2 * n + 2 * q) = k := by omega
      rw [hs]
    simp only [colIdxs, wrtLen]
    rw [show 2 * n + 2 * q + r = n + (n + (q + (q + r))) from by ring,
      mapRangeAdd, mapRangeAdd, mapRangeAdd, mapRangeAdd, h1, h2, h3, h4, h5]
    simp [List.append_assoc]

/-- C5: the dynamics Jacobian pattern is exactly as claimed — the row
written for constraint node `i` and state `j` is `j * (N - 1) + i`, and the
columns follow the stencil's node mapping over the flat free-variable layout
(`specColIndex`): backward Euler places current-state and current-trajectory
columns at node `i + 1` and adjacent-state columns at node `i`; midpoint
places current columns at node `i` and adjacent/next columns at node
`i + 1`; unknown-parameter columns come after all state and
unknown-trajectory blocks. -/
theorem c5_dynamics_jacobian_pattern (m : IntegrationMethod) (n q r N : Nat) :
    dynJacRowIdxs m n q r N = specDynRowIdxs m n q r N ∧
    dynJacColIdxs m n q r N = specDynColIdxs m n q r N := by
  constructor
  · unfold dynJacRowIdxs specDynRowIdxs
    apply flatMapCongr
    intro i _
    unfold nodeRowEntries rowIdxs
    rw [List.flatMap_map]
    simp only [colIdxs_length]
  · unfold dynJacColIdxs specDynColIdxs
    apply flatMapCongr
    intro i _
    unfold nodeColEntries
    rw [rowIdxs_length, flattenReplicate, colIdxs_eq_spec]

lemma numNonzeroPerNode_eq (m : IntegrationMethod) (n q r : Nat) :
    numNonzeroPerNode m n q r = n * wrtLen m n q r := by
  cases m <;> rfl

lemma nodeRowEntries_length (m : IntegrationMethod) (n q r N i : Nat) :
    (nodeRowEntries m n q r N i).length = n * wrtLen m n q r := by
  unfold nodeRowEntries
  rw [flatMapLengthConst _ _ (wrtLen m n q r)
    (fun a _ => by simp [colIdxs_length]), rowIdxs_length]

lemma nodeColEntries_length (m : IntegrationMethod) (n q r N i : Nat) :
    (nodeColEntries m n q r N i).length = n * wrtLen m n q r := by
  unfold nodeColEntries
  rw [rowIdxs_length, flattenReplicate,
    flatMapLengthConst _ _ (wrtLen m n q r)
      (fun a _ => by simp [colIdxs_length]), List.length_range]

lemma dynJacRowIdxs_length (m : IntegrationMethod) (n q r N : Nat) :
    (dynJacRowIdxs m n q r N).length = (N - 1) * numNonzeroPerNode m n q r := by
  unfold dynJacRowIdxs
  rw [flatMapLengthConst _ _ (numNonzeroPerNode m n q r)
    (fun i _ => by rw [nodeRowEntries_length, numNonzeroPerNode_eq]),
    List.length_range]

lemma dynJacColIdxs_length (m : IntegrationMethod) (n q r N : Nat) :
    (dynJacColIdxs m n q r N).length = (N - 1) * numNonzeroPerNode m n q r := by
  unfold dynJacColIdxs
  rw [flatMapLengthConst _ _ (numNonzeroPerNode m n q r)
    (fun i _ => by rw [nodeColEntries_length, numNonzeroPerNode_eq]),
    List.length_range]

lemma dynJacValues_length (m : IntegrationMethod) (n q r N : Nat)
    (vals : Nat → Nat → ℚ) :
    (dynJacValues m n q r N vals).length =
      (N - 1) * numNonzeroPerNode m n q r := by
  unfold dynJacValues
  rw [flatMapLengthConst _ _ (n * wrtLen m n q r) (fun k _ => by simp),
    List.length_range, numNonzeroPerNode_eq]

lemma instanceRows_length (N : Nat) (cons : List (List Nat)) :
    (instanceConstraintsJacobianIndices N cons).1.length =
      (cons.map List.length).sum := by
  unfold instanceConstraintsJacobianIndices
  rw [List.length_flatMap]
  show (cons.enum.map fun a =>
      (List.replicate a.2.length (2 * (N - 1) + a.1)).length).sum =
    (cons.map List.length).sum
  have h2 : (cons.enum.map fun a =>
      (List.replicate a.2.length (2 * (N - 1) + a.1)).length) =
      cons.map List.length := by
    have h3 : (fun (a : Nat × List Nat) =>
        (List.replicate a.2.length (2 * (N - 1) + a.1)).length) =
        fun (a : Nat × List Nat) => a.2.length := by
      funext a
      exact List.length_replicate _ _
    rw [h3]
    have h4 : (cons.enum.map fun (a : Nat × List Nat) => a.2.length) =
        (cons.enum.map Prod.snd).map List.length := by
      rw [List.map_map]
      rfl
    rw [h4, List.enum_map_snd]
  rw [h2]

lemma instanceCols_length (N : Nat) (cons : List (List Nat)) :
    (instanceConstraintsJacobianIndices N cons).2.length =
      (cons.map List.length).sum := by
  unfold instanceConstraintsJacobianIndices
  exact List.length_flatten cons

/-- The C6 property bundle: the dynamics part of the triplet structure has
exactly `(N−1)·n·(2n+q+r)` entries for backward Euler and
`(N−1)·n·(2n+2q+r)` for midpoint, the instance-constraint entries are
exactly the trailing block after the dynamics entries, and the row and
column index arrays each have the same length as the Jacobian value array,
both with and without instance constraints. -/
def JacobianCountAgreement (m : IntegrationMethod) (n q r N : Nat)
    (cons : List (List Nat)) (vals : Nat → Nat → ℚ)
    (instVals : List (List ℚ)) : Prop :=
  ((dynJacRowIdxs IntegrationMethod.backwardEuler n q r N).length =
      (N - 1) * (n * (2 * n + q + r)) ∧
    (dynJacRowIdxs IntegrationMethod.midpoint n q r N).length =
      (N - 1) * (n * (2 * n + 2 * q + r)) ∧
    (dynJacColIdxs IntegrationMethod.backwardEuler n q r N).length =
      (N - 1) * (n * (2 * n + q + r)) ∧
    (dynJacColIdxs IntegrationMethod.midpoint n q r N).length =
      (N - 1) * (n * (2 * n + 2 * q + r))) ∧
  ((jacobianIndices m n q r N (some cons)).1.drop
      ((N - 1) * numNonzeroPerNode m n q r) =
    (instanceConstraintsJacobianIndices N cons).1 ∧
   (jacobianIndices m n q r N (some cons)).2.drop
      ((N - 1) * numNonzeroPerNode m n q r) =
    (instanceConstraintsJacobianIndices N cons).2) ∧
  ((jacobianIndices m n q r N (some cons)).1.length =
      (jacValues m n q r N vals (some instVals)).length ∧
    (jacobianIndices m n q r N (some cons)).2.length =
      (jacValues m n q r N vals (some instVals)).length ∧
    (jacobianIndices m n q r N none).1.length =
      (jacValues m n q r N vals none).length ∧
    (jacobianIndices m n q r N none).2.length =
      (jacValues m n q r N vals none).length)

/-- C6: for both stencils and all variable counts the dynamics part of the
Jacobian triplet structure has exactly `(N−1)·n·(2n+q+r)` entries for
backward Euler and `(N−1)·n·(2n+2q+r)` for midpoint, instance-constraint
entries are appended at the end, and (for value arrays of the shape the
evaluators produce — one value per dynamics partial and one per referenced
instance function) the index arrays and the value array have equal
lengths. -/
theorem c6_jacobian_structure_value_counts (m : IntegrationMethod)
    (n q r N : Nat) (cons : List (List Nat)) (vals : Nat → Nat → ℚ)
    (instVals : List (List ℚ))
    (h : instVals.map List.length = cons.map List.length) :
    JacobianCountAgreement m n q r N cons vals instVals := by
  unfold JacobianCountAgreement
  refine ⟨⟨?_, ?_, ?_, ?_⟩, ⟨?_, ?_⟩, ?_, ?_, ?_, ?_⟩
  · rw [dynJacRowIdxs_length]; rfl
  · rw [dynJacRowIdxs_length]; rfl
  · rw [dynJacColIdxs_length]; rfl
  · rw [dynJacColIdxs_length]; rfl
  · simp only [jacobianIndices]
    rw [← dynJacRowIdxs_length m n q r N]
    exact List.drop_left _ _
  · simp only [jacobianIndices]
    rw [← dynJacColIdxs_length m n q r N]
    exact List.drop_left _ _
  · simp only [jacobianIndices, jacValues, List.length_append]
    rw [dynJacRowIdxs_length, dynJacValues_length, instanceRows_length,
      List.length_flatten, h]
  · simp only [jacobianIndices, jacValues, List.length_append]
    rw [dynJacColIdxs_length, dynJacValues_length, instanceCols_length,
      List.length_flatten, h]
  · simp only [jacobianIndices, jacValues]
    rw [dynJacRowIdxs_length, dynJacValues_length]
  · simp only [jacobianIndices, jacValues]
    rw [dynJacColIdxs_length, dynJacValues_length]

/-- C6 witness: one state, no unknown trajectories or parameters, `N = 2`,
one instance constraint referencing one function. -/
theorem c6_witness :
    ([[(5 : ℚ)]].map List.length = [[(0 : Nat)]].map List.length) ∧
    JacobianCountAgreement IntegrationMethod.backwardEuler 1 0 0 2 [[0]]
      (fun _ _ => 0) [[5]] :=
  ⟨rfl, c6_jacobian_structure_value_counts IntegrationMethod.backwardEuler
    1 0 0 2 [[0]] (fun _ _ => 0) [[5]] rfl⟩

/-- Tail loop of `np.argmin`: scan with the best value so far, updating
only on strict improvement, so the first occurrence of the minimum wins —
matching numpy's lowest-index tie-breaking. -/
def argminGo : List ℚ → Nat → ℚ → Nat → Nat
  | [], bi, _, _ => bi
  | v :: rest, bi, bv, i =>
    if v < bv then argminGo rest i v (i + 1) else argminGo rest bi bv (i + 1)

/-- `np.argmin` over a list (`direct_collocation.py:681`); the empty case
does not arise since `N ≥ 1`. -/
def npArgmin : List ℚ → Nat
  | [] => 0
  | v :: rest => argminGo rest 0 v 1

/-- `np.linspace(0.0, duration, num=N)` with `duration = h * (N - 1)`
(`direct_collocation.py:672-676`): in exact arithmetic the node times are
`0, h, 2h, …, (N-1)h`. -/
def timeVec (h : ℚ) (N : Nat) : List ℚ :=
  (List.range N).map fun i : Nat => (i : ℚ) * h

/-- `np.argmin(np.abs(time_vector - time_value))`
(`direct_collocation.py:681`). -/
def timeIndex (h t : ℚ) (N : Nat) : Nat :=
  npArgmin ((timeVec h N).map fun tv => |tv - t|)

/-- `determine_free_index` (`direct_collocation.py:668-670`):
`time_index + state_index * N`. -/
def determineFreeIndex (timeIdx stateIdx N : Nat) : Nat :=
  timeIdx + stateIdx * N

/-- The per-function body of `_find_closest_free_index`
(`direct_collocation.py:664-686`): snap the time value to the nearest grid
node and resolve to the absolute free-variable index. -/
def findClosestFreeIndex (h t : ℚ) (N stateIdx : Nat) : Nat :=
  determineFreeIndex (timeIndex h t N) stateIdx N

lemma argminGo_noUpdate :
    ∀ (xs : List ℚ) (bi : Nat) (bv : ℚ) (i : Nat),
      (∀ x ∈ xs, ¬ x < bv) → argminGo xs bi bv i = bi := by
  intro xs
  induction xs with
  | nil => intro bi bv i _; rfl
  | cons y ys ih =>
    intro bi bv i hy
    have hny : ¬ y < bv := hy y (by simp)
    simp only [argminGo, if_neg hny]
    exact ih bi bv (i + 1) fun x hx => hy x (by simp [hx])

lemma argminGo_strictDesc :
    ∀ (xs : List ℚ) (x bv : ℚ) (bi i : Nat), x < bv →
      List.Chain (fun a b => b < a) x xs →
      argminGo (x :: xs) bi bv i = i + xs.length := by
  intro xs
  induction xs with
  | nil =>
    intro x bv bi i hx _
    simp [argminGo, hx]
  | cons y ys ih =>
    intro x bv bi i hx hch
    have hstep : argminGo (x :: y :: ys) bi bv i =
        argminGo (y :: ys) i x (i + 1) := by
      simp [argminGo, hx]
    rw [hstep]
    cases hch with
    | cons hyx hch2 =>
      rw [ih y x i (i + 1) hyx hch2]
      simp only [List.length_cons]
      omega

lemma npArgmin_headMin (x : ℚ) (xs : List ℚ) (h : ∀ v ∈ xs, ¬ v < x) :
    npArgmin (x :: xs) = 0 := by
  show argminGo xs 0 x 1 = 0
  exact argminGo_noUpdate xs 0 x 1 h

lemma npArgmin_chainDesc (l : List ℚ) (hne : l ≠ [])
    (h : List.Chain' (fun a b => b < a) l) : npArgmin l = l.length - 1 := by
  cases l with
  | nil => exact absurd rfl hne
  | cons x xs =>
    have h2 : List.Chain (fun a b => b < a) x xs := h
    cases xs with
    | nil => rfl
    | cons y ys =>
      cases h2 with
      | cons hxy hch =>
        show argminGo (y :: ys) 0 x 1 = (x :: y :: ys).length - 1
        rw [argminGo_strictDesc ys y x 0 1 hxy hch]
        simp only [List.length_cons]
        omega

/-- C9: for every instance-constraint state-at-time reference whose time
value lies outside the grid span `[0, h·(N−1)]`, resolution succeeds (the
resolver is total, no error is raised) and snaps to the nearest endpoint
node: node `0` for times below `0` and node `N − 1` for times above the
duration, yielding the free index `time_index + state_index · N`. -/
theorem c9_out_of_span_times_snap_to_endpoints (h t : ℚ) (N si : Nat)
    (hp : 0 < h) (hN : 1 ≤ N) :
    (t < 0 → findClosestFreeIndex h t N si = 0 + si * N) ∧
    (h * ((N - 1 : Nat) : ℚ) < t →
      findClosestFreeIndex h t N si = (N - 1) + si * N) := by
  obtain ⟨M, rfl⟩ : ∃ M, N = M + 1 := ⟨N - 1, by omega⟩
  have hvec : (timeVec h (M + 1)).map (fun tv => |tv - t|) =
      (List.range (M + 1)).map fun k : Nat => |(k : ℚ) * h - t| := by
    simp only [timeVec, List.map_map]
    rfl
  constructor
  · intro ht
    have hidx : timeIndex h t (M + 1) = 0 := by
      unfold timeIndex
      rw [hvec, List.range_succ_eq_map, List.map_cons, List.map_map]
      apply npArgmin_headMin
      intro v hv
      obtain ⟨k, _, rfl⟩ := List.mem_map.mp hv
      simp only [Function.comp]
      have hk1 : (0 : ℚ) ≤ ((k : ℚ) + 1) * h := by positivity
      have hg0 : |((0 : Nat) : ℚ) * h - t| = -t := by
        push_cast
        rw [zero_mul, zero_sub, abs_neg, abs_of_neg ht]
      rw [hg0, not_lt]
      have hcast : ((Nat.succ k : Nat) : ℚ) * h - t = ((k : ℚ) + 1) * h - t := by
        push_cast
        ring
      rw [hcast]
      calc -t ≤ ((k : ℚ) + 1) * h - t := by linarith
        _ ≤ |((k : ℚ) + 1) * h - t| := le_abs_self _
    unfold findClosestFreeIndex determineFreeIndex
    rw [hidx]
  · intro ht
    have hdur : ((M + 1 - 1 : Nat) : ℚ) = (M : ℚ) := by
      push_cast [Nat.add_sub_cancel]
      rfl
    rw [hdur] at ht
    have habs : ∀ k : Nat, k ≤ M → |(k : ℚ) * h - t| = t - (k : ℚ) * h := by
      intro k hk
      have hkM : (k : ℚ) ≤ (M : ℚ) := by exact_mod_cast hk
      have hle : (k : ℚ) * h ≤ (M : ℚ) * h :=
        mul_le_mul_of_nonneg_right hkM hp.le
      have : (k : ℚ) * h - t ≤ 0 := by nlinarith
      rw [abs_of_nonpos this]
      ring
    have hidx : timeIndex h t (M + 1) = M := by
      unfold timeIndex
      rw [hvec]
      have hlen : ((List.range (M + 1)).map
          fun k : Nat => |(k : ℚ) * h - t|).length = M + 1 := by simp
      have hchain : List.Chain' (fun a b => b < a)
          ((List.range (M + 1)).map fun k : Nat => |(k : ℚ) * h - t|) := by
        rw [List.chain'_map, List.chain'_range_succ]
        intro m hm
        rw [habs m (by omega), habs (m + 1) (by omega)]
        have hmh : (m : ℚ) * h < ((m + 1 : Nat) : ℚ) * h := by
          push_cast
          nlinarith
        linarith
      rw [npArgmin_chainDesc _ (by simp) hchain, hlen]
      omega
    unfold findClosestFreeIndex determineFreeIndex
    rw [hidx, Nat.add_sub_cancel]

/-- C9 witness: on the grid `N = 3`, `h = 1` (span `[0, 2]`), the time
`-1` resolves to node 0 and the time `5` to node 2, each shifted by
`state_index · N` for state index 1. -/
theorem c9_witness :
    (0 : ℚ) < 1 ∧ (1 : Nat) ≤ 3 ∧ (-1 : ℚ) < 0 ∧
    (1 : ℚ) * ((3 - 1 : Nat) : ℚ) < 5 ∧
    findClosestFreeIndex 1 (-1) 3 1 = 0 + 1 * 3 ∧
    findClosestFreeIndex 1 5 3 1 = (3 - 1) + 1 * 3 := by
  refine ⟨by norm_num, by norm_num, by norm_num, by norm_num, ?_, ?_⟩
  · exact (c9_out_of_span_times_snap_to_endpoints 1 (-1) 3 1 (by norm_num)
      (by norm_num)).1 (by norm_num)
  · exact (c9_out_of_span_times_snap_to_endpoints 1 5 3 1 (by norm_num)
      (by norm_num)).2 (by norm_num)

end Opty
